import Mathlib

/-!
# meter-go: transaction model, codec, hashing and identifier parsing

A shallow embedding of the `meter-go` repository's core: the fixed-width
identifier parsers (`meter.ParseAddress`, `meter.ParseBytes32`), the
transaction/clause data model (`tx/transaction.go`, `tx/clause.go`), the
canonical RLP codec used for wire bytes and the signing hash, the blake2b-256
digest, and the derived queries (`IsExpired`, `GasPrice`, `Signer`, `ID`).

Bytes are modelled as `Nat` with explicit `< 256` validity bounds; Go's
`uint64`/`uint32`/`uint8` fields are `Nat` with width bounds; `*big.Int` is
`Int`; fallible Go functions returning `(value, error)` are `Except String`.
-/

set_option maxRecDepth 100000

namespace MeterGo

/-! ## Identifier parsing (`meter` package: Address / Bytes32) -/

/-- ASCII lowercase conversion, as Go's `strings.ToLower` acts on the ASCII
range (the only range the `0x`-prefix comparison can match). -/
def asciiToLower (c : Char) : Char :=
  if 'A' ≤ c ∧ c ≤ 'Z' then Char.ofNat (c.toNat + 32) else c

/-- Decode one hex digit, as Go's `encoding/hex` `fromHexChar`. -/
def hexVal (c : Char) : Option Nat :=
  if '0' ≤ c ∧ c ≤ '9' then some (c.toNat - '0'.toNat)
  else if 'a' ≤ c ∧ c ≤ 'f' then some (c.toNat - 'a'.toNat + 10)
  else if 'A' ≤ c ∧ c ≤ 'F' then some (c.toNat - 'A'.toNat + 10)
  else none

/-- Go `hex.Decode`: successive pairs of hex digits become bytes; a non-hex
character is an `encoding/hex: invalid byte` error, an odd-length source an
`encoding/hex: odd length hex string` error. -/
def hexDecode : List Char → Except String (List Nat)
  | [] => .ok []
  | [_] => .error "encoding/hex: odd length hex string"
  | a :: b :: rest =>
    match hexVal a with
    | none => .error "encoding/hex: invalid byte"
    | some hi =>
      match hexVal b with
      | none => .error "encoding/hex: invalid byte"
      | some lo =>
        match hexDecode rest with
        | .error e => .error e
        | .ok bs => .ok ((hi * 16 + lo) :: bs)

/-- `meter.ParseAddress`: a 40-hex-digit string, optionally preceded by a
case-insensitive `0x`, becomes the 20 address bytes. -/
def ParseAddress (s : List Char) : Except String (List Nat) :=
  if s.length = 20 * 2 then hexDecode s
  else if s.length = 20 * 2 + 2 then
    if (s.take 2).map asciiToLower = ['0', 'x'] then hexDecode (s.drop 2)
    else .error "invalid prefix"
  else .error "invalid length"

/-- `meter.ParseBytes32`: a 64-hex-digit string, optionally preceded by a
case-insensitive `0x`, becomes the 32 hash bytes. -/
def ParseBytes32 (s : List Char) : Except String (List Nat) :=
  if s.length = 32 * 2 then hexDecode s
  else if s.length = 32 * 2 + 2 then
    if (s.take 2).map asciiToLower = ['0', 'x'] then hexDecode (s.drop 2)
    else .error "invalid prefix"
  else .error "invalid length"

/-- Whether an `Except` result is a success. -/
def isOkE : Except String (List Nat) → Bool
  | .ok _ => true
  | .error _ => false

/-- All characters of the string are hex digits. -/
def allHex (s : List Char) : Bool := s.all fun c => (hexVal c).isSome

/-! ## RLP encoding (go-ethereum `rlp` package, as used by `tx`) -/

/-- Big-endian digit recursion with explicit fuel, so that the kernel can
evaluate it; `fuel ≥ n` always suffices since `n / 256 < n` for `n > 0`. -/
def beBytesAux : Nat → Nat → List Nat
  | _, 0 => []
  | 0, _ + 1 => []
  | fuel + 1, n + 1 => beBytesAux fuel ((n + 1) / 256) ++ [(n + 1) % 256]

/-- Minimal big-endian byte representation of a natural number (`big.Int.Bytes`
/ go-ethereum `putint`): no leading zero byte, empty for `0`. -/
def beBytes (n : Nat) : List Nat := beBytesAux n n

/-- Big-endian value of a byte list. -/
def beValue (l : List Nat) : Nat := l.foldl (fun acc b => acc * 256 + b) 0

/-- RLP length header: `offset+len` for short payloads (≤ 55 bytes), else
`offset+55+lenOfLen` followed by the big-endian length. -/
def encLen (offset n : Nat) : List Nat :=
  if n ≤ 55 then [offset + n]
  else (offset + 55 + (beBytes n).length) :: beBytes n

/-- RLP byte-string encoding: a single byte below `0x80` encodes as itself,
otherwise a `0x80`-offset header followed by the bytes. -/
def encStr (bs : List Nat) : List Nat :=
  match bs with
  | [b] => if b < 128 then [b] else encLen 128 1 ++ [b]
  | _ => encLen 128 bs.length ++ bs

/-- RLP unsigned-integer encoding: the `encStr` of its minimal big-endian
bytes (so `0` is the empty string `0x80`). -/
def encUint (n : Nat) : List Nat := encStr (beBytes n)

/-- RLP list encoding of an already-encoded payload. -/
def encList (payload : List Nat) : List Nat := encLen 192 payload.length ++ payload

/-- A generic RLP value, the shape Go's `[]interface{}` reserved list can
round-trip: byte strings and nested lists. -/
inductive RlpItem where
  | str (bs : List Nat)
  | items (l : List RlpItem)

mutual

/-- RLP encoding of a generic value. -/
def encItem : RlpItem → List Nat
  | .str bs => encStr bs
  | .items l => encList (encItems l)

/-- Concatenated RLP encodings of a list of generic values (a list payload). -/
def encItems : List RlpItem → List Nat
  | [] => []
  | i :: is => encItem i ++ encItems is

end

/-! ## blake2b-256 digest -/

/-- `2^64`, the word modulus of blake2b. -/
def two64 : Nat := 18446744073709551616

/-- Rotate a 64-bit word right by `n`. -/
def rotr64 (x n : Nat) : Nat := (x >>> n) ||| ((x <<< (64 - n)) % two64)

/-- The blake2b initialization vector (RFC 7693). -/
def blakeIV : List Nat :=
  [0x6a09e667f3bcc908, 0xbb67ae8584caa73b, 0x3c6ef372fe94f82b, 0xa54ff53a5f1d36f1,
   0x510e527fade682d1, 0x9b05688c2b3e6c1f, 0x1f83d9abfb41bd6b, 0x5be0cd19137e2179]

/-- The blake2b message schedule: rounds `10` and `11` reuse rows `0`, `1`. -/
def blakeSigma : List (List Nat) :=
  [[0, 1, 2, 3, 4, 5, 6, 7, 8, 9, 10, 11, 12, 13, 14, 15],
   [14, 10, 4, 8, 9, 15, 13, 6, 1, 12, 0, 2, 11, 7, 5, 3],
   [11, 8, 12, 0, 5, 2, 15, 13, 10, 14, 3, 6, 7, 1, 9, 4],
   [7, 9, 3, 1, 13, 12, 11, 14, 2, 6, 5, 10, 4, 0, 15, 8],
   [9, 0, 5, 7, 2, 4, 10, 15, 14, 1, 11, 12, 6, 8, 3, 13],
   [2, 12, 6, 10, 0, 11, 8, 3, 4, 13, 7, 5, 15, 14, 1, 9],
   [12, 5, 1, 15, 14, 13, 4, 10, 0, 7, 6, 3, 9, 2, 8, 11],
   [13, 11, 7, 14, 12, 1, 3, 9, 5, 0, 15, 4, 8, 6, 2, 10],
   [6, 15, 14, 9, 11, 3, 0, 8, 12, 2, 13, 7, 1, 4, 10, 5],
   [10, 2, 8, 4, 7, 6, 1, 5, 15, 11, 9, 14, 3, 12, 13, 0]]

/-- The blake2b `G` mixing function on working-vector positions
`a b c d` with message words `x y`. -/
def blakeG (v : List Nat) (a b c d x y : Nat) : List Nat :=
  let va := (v.getD a 0 + v.getD b 0 + x) % two64
  let vd := rotr64 ((v.getD d 0) ^^^ va) 32
  let vc := (v.getD c 0 + vd) % two64
  let vb := rotr64 ((v.getD b 0) ^^^ vc) 24
  let va2 := (va + vb + y) % two64
  let vd2 := rotr64 (vd ^^^ va2) 16
  let vc2 := (vc + vd2) % two64
  let vb2 := rotr64 (vb ^^^ vc2) 63
  (((v.set a va2).set b vb2).set c vc2).set d vd2

/-- One blake2b round over the working vector with schedule row `s`. -/
def blakeRound (m v s : List Nat) : List Nat :=
  let w := fun (i : Nat) => m.getD (s.getD i 0) 0
  let v1 := blakeG v 0 4 8 12 (w 0) (w 1)
  let v2 := blakeG v1 1 5 9 13 (w 2) (w 3)
  let v3 := blakeG v2 2 6 10 14 (w 4) (w 5)
  let v4 := blakeG v3 3 7 11 15 (w 6) (w 7)
  let v5 := blakeG v4 0 5 10 15 (w 8) (w 9)
  let v6 := blakeG v5 1 6 11 12 (w 10) (w 11)
  let v7 := blakeG v6 2 7 8 13 (w 12) (w 13)
  blakeG v7 3 4 9 14 (w 14) (w 15)

/-- Little-endian word value of a byte list. -/
def leWord (bs : List Nat) : Nat := bs.foldr (fun b acc => acc * 256 + b) 0

/-- The sixteen little-endian 64-bit message words of a 128-byte block. -/
def blockWords (block : List Nat) : List Nat :=
  (List.range 16).map fun i => leWord ((block.drop (8 * i)).take 8)

/-- The blake2b compression function `F(h, m, t, f)`. -/
def blakeCompress (h block : List Nat) (t : Nat) (f : Bool) : List Nat :=
  let m := blockWords block
  let v0 := h ++ blakeIV
  let v1 := v0.set 12 ((v0.getD 12 0) ^^^ (t % two64))
  let v2 := v1.set 13 ((v1.getD 13 0) ^^^ (t / two64 % two64))
  let v3 := if f then v2.set 14 ((v2.getD 14 0) ^^^ (two64 - 1)) else v2
  let v := (List.range 12).foldl (fun v i => blakeRound m v (blakeSigma.getD (i % 10) [])) v3
  (List.range 8).map fun i => (h.getD i 0) ^^^ (v.getD i 0) ^^^ (v.getD (i + 8) 0)

/-- Absorb the message 128 bytes at a time; the final (padded) block is
compressed with the finalization flag and the total byte count. Structural
fuel recursion (one unit per block) so the kernel can evaluate it. -/
def blakeBlocks (fuel : Nat) (h msg : List Nat) (done : Nat) : List Nat :=
  match fuel with
  | 0 => h
  | fuel + 1 =>
    if msg.length ≤ 128 then
      blakeCompress h (msg ++ List.replicate (128 - msg.length) 0) (done + msg.length) true
    else
      blakeBlocks fuel (blakeCompress h (msg.take 128) (done + 128) false) (msg.drop 128) (done + 128)

/-- The eight little-endian bytes of a 64-bit word. -/
def wordLEBytes (w : Nat) : List Nat := (List.range 8).map fun i => (w >>> (8 * i)) % 256

/-- Modelled from the spec: the hash collaborator `meter.NewBlake2b` (its Go
source is not under `src/`) is the 256-bit blake2b digest — unkeyed
blake2b-2b with 32-byte output (RFC 7693), written incrementally and
finalized with `Sum`. -/
def blake2b256 (msg : List Nat) : List Nat :=
  let h0 := (blakeIV.set 0 ((blakeIV.getD 0 0) ^^^ 0x01010020))
  let h := blakeBlocks (msg.length + 1) h0 msg 0
  ((h.take 4).map wordLEBytes).flatten

/-! ## Data model (`tx/clause.go`, `tx/transaction.go`) -/

/-- `tx.clauseBody`: recipient (`*meter.Address`, 20 bytes, `rlp:"nil"`),
value (`*big.Int`), token selector (`byte`), payload (`[]byte`). -/
structure clauseBody where
  To : Option (List Nat)
  Value : Int
  Token : Nat
  Data : List Nat

/-- `tx.Clause`. -/
structure Clause where
  body : clauseBody

/-- `tx.body`: the ten transaction body fields, in source order. -/
structure body where
  ChainTag : Nat
  BlockRef : Nat
  Expiration : Nat
  Clauses : List Clause
  GasPriceCoef : Nat
  Gas : Nat
  DependsOn : Option (List Nat)
  Nonce : Nat
  Reserved : List RlpItem
  Signature : List Nat

/-- `tx.Transaction`. -/
structure Transaction where
  body : body

/-- `tx.NewClause`: recipient as given, value zero, token `MeterToken`,
empty data. -/
def NewClause (toAddr : Option (List Nat)) : Clause :=
  ⟨⟨toAddr, 0, 0, []⟩⟩

/-- `Clause.WithValue`: functional update of the value. -/
def Clause.WithValue (c : Clause) (value : Int) : Clause :=
  ⟨{ c.body with Value := value }⟩

/-- `Clause.WithData`: functional update of the data payload. -/
def Clause.WithData (c : Clause) (data : List Nat) : Clause :=
  ⟨{ c.body with Data := data }⟩

/-- `Clause.WithToken`: functional update of the token selector. -/
def Clause.WithToken (c : Clause) (token : Nat) : Clause :=
  ⟨{ c.body with Token := token }⟩

/-- `Transaction.WithSignature`: a new transaction with the signature
replaced by a copy of `sig`. -/
def Transaction.WithSignature (t : Transaction) (sig : List Nat) : Transaction :=
  ⟨{ t.body with Signature := sig }⟩

/-- `Clause.To` accessor (returns a copy of the optional recipient). -/
def Clause.To (c : Clause) : Option (List Nat) := c.body.To

/-- `Clause.Value` accessor (returns a copy of the value). -/
def Clause.Value (c : Clause) : Int := c.body.Value

/-- `Clause.Data` accessor (returns a copy of the payload). -/
def Clause.Data (c : Clause) : List Nat := c.body.Data

/-- `Clause.Token` accessor. -/
def Clause.Token (c : Clause) : Nat := c.body.Token

/-- `Transaction.ChainTag` accessor. -/
def Transaction.ChainTag (t : Transaction) : Nat := t.body.ChainTag

/-- `Transaction.Nonce` accessor. -/
def Transaction.Nonce (t : Transaction) : Nat := t.body.Nonce

/-- `Transaction.Expiration` accessor. -/
def Transaction.Expiration (t : Transaction) : Nat := t.body.Expiration

/-- `Transaction.Clauses` accessor (returns a copy of the clause list). -/
def Transaction.Clauses (t : Transaction) : List Clause := t.body.Clauses

/-- `Transaction.DependsOn` accessor (returns a copy of the optional hash). -/
def Transaction.DependsOn (t : Transaction) : Option (List Nat) := t.body.DependsOn

/-- `Transaction.Signature` accessor (returns a copy of the signature). -/
def Transaction.Signature (t : Transaction) : List Nat := t.body.Signature

/-- The eight big-endian bytes of `body.BlockRef`
(`binary.BigEndian.PutUint64` in `Transaction.BlockRef`). -/
def Transaction.blockRefBytes (t : Transaction) : List Nat :=
  (List.range 8).map fun i => (t.body.BlockRef >>> (8 * (7 - i))) % 256

/-- Modelled from the spec: `BlockRef.Number` (its Go source, `block_ref.go`,
is not under `src/`) — the first 4 bytes of a BlockRef are the block's
big-endian `u32` height. -/
def BlockRefNumber (br : List Nat) : Nat := beValue (br.take 4)

/-- `Transaction.IsExpired`: `uint64(blockNum) > uint64(blockRef.Number()) +
uint64(expiration)`; both summands are below `2^32`, so the widened `uint64`
sum never wraps and plain `Nat` arithmetic is exact. -/
def Transaction.IsExpired (t : Transaction) (blockNum : Nat) : Bool :=
  blockNum > BlockRefNumber t.blockRefBytes + t.body.Expiration

/-- `Transaction.GasPrice`: `x := coef; x *= base; x /= 255; x += base` on
`big.Int`, where `big.Int.Div` is Euclidean division. -/
def Transaction.GasPrice (t : Transaction) (baseGasPrice : Int) : Int :=
  Int.ediv ((t.body.GasPriceCoef : Int) * baseGasPrice) 255 + baseGasPrice

/-- `Transaction.HasReservedFields`. -/
def Transaction.HasReservedFields (t : Transaction) : Bool :=
  t.body.Reserved.length > 0

/-! ## Canonical encoding of clauses and transactions -/

/-- RLP encoding of an optional fixed-width byte field (`*meter.Address` /
`*meter.Bytes32` with `rlp:"nil"`): `nil` is the empty string `0x80`. -/
def encOptBytes : Option (List Nat) → List Nat
  | none => [128]
  | some bs => encStr bs

/-- The concatenated field encodings of a clause body, in source order:
`To`, `Value`, `Token`, `Data`. The value takes its `big.Int.Bytes`
(non-negative case). -/
def clausePayload (c : Clause) : List Nat :=
  encOptBytes c.body.To ++ encStr (beBytes c.body.Value.toNat) ++
    encUint c.body.Token ++ encStr c.body.Data

/-- The RLP encoding of one clause (`Clause.EncodeRLP`, non-negative value). -/
def clauseBytes (c : Clause) : List Nat := encList (clausePayload c)

/-- `Clause.EncodeRLP`: errors on a negative `big.Int` value, as
go-ethereum's `rlp.Encode` does. -/
def Clause.EncodeRLP (c : Clause) : Except String (List Nat) :=
  if c.body.Value < 0 then .error "rlp: cannot encode negative *big.Int"
  else .ok (clauseBytes c)

/-- The concatenated field encodings of the nine signing fields, in source
order (`Transaction.SigningHash`'s list): `ChainTag`, `BlockRef`,
`Expiration`, `Clauses`, `GasPriceCoef`, `Gas`, `DependsOn`, `Nonce`,
`Reserved` — the signature is omitted. -/
def signingPayload (b : body) : List Nat :=
  encUint b.ChainTag ++ encUint b.BlockRef ++ encUint b.Expiration ++
    encList (List.flatten (b.Clauses.map clauseBytes)) ++
    encUint b.GasPriceCoef ++ encUint b.Gas ++ encOptBytes b.DependsOn ++
    encUint b.Nonce ++ encList (encItems b.Reserved)

/-- The concatenated field encodings of the full ten-field body, in source
order: the nine signing fields followed by `Signature`. -/
def txPayload (b : body) : List Nat :=
  signingPayload b ++ encStr b.Signature

/-- The RLP encoding of a full transaction body (non-negative clause values). -/
def txBytes (b : body) : List Nat := encList (txPayload b)

/-- Whether every clause value is encodable (non-negative). -/
def clausesEncodable (b : body) : Bool :=
  b.Clauses.all fun c => 0 ≤ c.body.Value

/-- `Transaction.EncodeRLP` (`rlp.Encode(w, &t.body)`): the RLP list of the
ten body fields; a negative clause value is an encoding error. -/
def Transaction.EncodeRLP (t : Transaction) : Except String (List Nat) :=
  if clausesEncodable t.body then .ok (txBytes t.body)
  else .error "rlp: cannot encode negative *big.Int"

/-- The signing-hash input (`rlp.Encode(hw, []interface{}{...nine fields...})`
in `Transaction.SigningHash`): the RLP list of the nine signing fields. -/
def signingEncoding (t : Transaction) : Except String (List Nat) :=
  if clausesEncodable t.body then .ok (encList (signingPayload t.body))
  else .error "rlp: cannot encode negative *big.Int"

/-- The all-zero 32-byte hash (`meter.Bytes32{}`). -/
def zeroBytes32 : List Nat := List.replicate 32 0

/-- The all-zero 20-byte address (`meter.Address{}`). -/
def zeroAddress : List Nat := List.replicate 20 0

/-- `Transaction.SigningHash`: blake2b-256 of the canonical encoding of the
body without the signature; if `rlp.Encode` fails the zero hash is returned
(the early `return` leaves `hash` zero-valued). -/
def Transaction.SigningHash (t : Transaction) : List Nat :=
  match signingEncoding t with
  | .ok bs => blake2b256 bs
  | .error _ => zeroBytes32

/-- The type of the signature collaborator, modelled from the spec:
`crypto.SigToPub` composed with `crypto.PubkeyToAddress` (both external to
this repository) — `(digest, signatureBytes) ↦ signerAddress | error`. -/
def RecoverFn : Type := List Nat → List Nat → Except String (List Nat)

/-- `Transaction.Signer`: the zero address with no error when the signature
is empty; otherwise signer recovery from `(signingHash, signature)`, whose
failure propagates as the error. -/
def Transaction.Signer (recover : RecoverFn) (t : Transaction) :
    Except String (List Nat) :=
  if t.body.Signature.isEmpty then .ok zeroAddress
  else recover t.SigningHash t.body.Signature

/-- `Transaction.ID`: the zero hash when `Signer` errors; otherwise the
blake2b-256 digest of the signing hash's bytes followed by the signer's
bytes. -/
def Transaction.ID (recover : RecoverFn) (t : Transaction) : List Nat :=
  match t.Signer recover with
  | .error _ => zeroBytes32
  | .ok signer => blake2b256 (t.SigningHash ++ signer)

/-! ## RLP decoding (go-ethereum `rlp.Stream`, as `DecodeRLP` uses it) -/

/-- An RLP type tag as `Stream.Kind` reports it: a self-encoding single byte,
a byte string of a given size, or a list of a given payload size. -/
inductive RKind where
  | byteK (b : Nat)
  | strK (n : Nat)
  | listK (n : Nat)

/-- `Stream.readKind`: classify the next value and its size, enforcing
canonical long sizes (no leading zero, at least 56). -/
def parseKind : List Nat → Except String (RKind × List Nat)
  | [] => .error "EOF"
  | b :: rest =>
    if b < 128 then .ok (.byteK b, rest)
    else if b ≤ 183 then .ok (.strK (b - 128), rest)
    else if b < 192 then
      let ln := b - 183
      if rest.length < ln then .error "rlp: value size exceeds available input length"
      else if (rest.take ln).headD 0 = 0 then .error "rlp: non-canonical size information"
      else if beValue (rest.take ln) ≤ 55 then .error "rlp: non-canonical size information"
      else .ok (.strK (beValue (rest.take ln)), rest.drop ln)
    else if b ≤ 247 then .ok (.listK (b - 192), rest)
    else
      let ln := b - 247
      if rest.length < ln then .error "rlp: value size exceeds available input length"
      else if (rest.take ln).headD 0 = 0 then .error "rlp: non-canonical size information"
      else if beValue (rest.take ln) ≤ 55 then .error "rlp: non-canonical size information"
      else .ok (.listK (beValue (rest.take ln)), rest.drop ln)

/-- Slice a value's announced content out of the enclosing region; announcing
more than is available is the stream's element-size error. -/
def takeSize (n : Nat) (bs : List Nat) : Except String (List Nat × List Nat) :=
  if n ≤ bs.length then .ok (bs.take n, bs.drop n)
  else .error "rlp: element is larger than containing list"

/-- `Stream.Bytes` (decoding `[]byte`): a single byte is itself; a string is
its content, rejecting a 1-byte string that should have been a single byte. -/
def parseStrBytes (bs : List Nat) : Except String (List Nat × List Nat) := do
  let (k, rest) ← parseKind bs
  match k with
  | .byteK b => .ok ([b], rest)
  | .strK n => do
    let (content, rest2) ← takeSize n rest
    if n = 1 ∧ content.headD 0 < 128 then .error "rlp: non-canonical size information"
    else .ok (content, rest2)
  | .listK _ => .error "rlp: expected input string or byte"

/-- `Stream.uint` with a width limit of `maxBytes`: single byte `0` and
leading zero bytes are non-canonical, an over-wide string overflows, and a
value below 128 must have been a single byte. -/
def parseUintN (maxBytes : Nat) (bs : List Nat) : Except String (Nat × List Nat) := do
  let (k, rest) ← parseKind bs
  match k with
  | .byteK b =>
    if b = 0 then .error "rlp: non-canonical integer (leading zero bytes)"
    else .ok (b, rest)
  | .strK n =>
    if n > maxBytes then .error "rlp: uint overflow"
    else do
      let (content, rest2) ← takeSize n rest
      if 2 ≤ n ∧ content.headD 1 = 0 then .error "rlp: non-canonical integer (leading zero bytes)"
      else if 0 < n ∧ beValue content < 128 then .error "rlp: non-canonical size information"
      else .ok (beValue content, rest2)
  | .listK _ => .error "rlp: expected input string or byte"

/-- `decodeBigInt` (decoding `*big.Int`): the string bytes with a leading
zero byte rejected as non-canonical. -/
def parseBigInt (bs : List Nat) : Except String (Int × List Nat) := do
  let (content, rest) ← parseStrBytes bs
  if content.headD 1 = 0 then .error "rlp: non-canonical integer (leading zero bytes)"
  else .ok ((beValue content : Int), rest)

/-- `decodeByteArray` for a `[w]byte` array, from an already-read kind: the
string size must match the array width exactly. -/
def parseByteArrayK (w : Nat) (k : RKind) (rest : List Nat) :
    Except String (List Nat × List Nat) :=
  match k with
  | .byteK b =>
    if w = 1 then .ok ([b], rest) else .error "rlp: input string too short"
  | .strK n =>
    if n < w then .error "rlp: input string too short"
    else if w < n then .error "rlp: input string too long"
    else do
      let (content, rest2) ← takeSize n rest
      if n = 1 ∧ content.headD 0 < 128 then .error "rlp: non-canonical size information"
      else .ok (content, rest2)
  | .listK _ => .error "rlp: expected input string or byte"

/-- `makePtrDecoder` with the `rlp:"nil"` tag (for `*meter.Address` and
`*meter.Bytes32`): any empty non-byte value decodes to `nil`, anything else
decodes as the pointed-to `[w]byte` array. -/
def parseOptByteArray (w : Nat) (bs : List Nat) :
    Except String (Option (List Nat) × List Nat) := do
  let (k, rest) ← parseKind bs
  match k with
  | .strK 0 => .ok (none, rest)
  | .listK 0 => .ok (none, rest)
  | k => do
    let (v, rest2) ← parseByteArrayK w k rest
    .ok (some v, rest2)

/-- `Clause.DecodeRLP` (`s.Decode(&body)` for a `clauseBody`): a four-field
list, fully consumed. -/
def parseClause (bs : List Nat) : Except String (Clause × List Nat) := do
  let (k, rest) ← parseKind bs
  match k with
  | .listK n => do
    let (content, rest2) ← takeSize n rest
    let (toA, r1) ← parseOptByteArray 20 content
    let (v, r2) ← parseBigInt r1
    let (tok, r3) ← parseUintN 1 r2
    let (data, r4) ← parseStrBytes r3
    if r4.isEmpty then .ok (⟨⟨toA, v, tok, data⟩⟩, rest2)
    else .error "rlp: input list has too many elements"
  | _ => .error "rlp: expected input list"

/-- Decode the elements of a `[]*Clause` list payload until it is exhausted.
Structural fuel (one unit per element) stands in for the stream's list
counter; any fuel above the element count behaves identically. -/
def parseClauseList : Nat → List Nat → Except String (List Clause)
  | _, [] => .ok []
  | 0, _ :: _ => .error "rlp: fuel exhausted"
  | fuel + 1, b :: bs => do
    let (c, rest) ← parseClause (b :: bs)
    let cs ← parseClauseList fuel rest
    .ok (c :: cs)

mutual

/-- `decodeInterface`: a string becomes its bytes, a list a `[]interface{}`
of recursively decoded elements. Fuel decreases at each list nesting. -/
def parseItem : Nat → List Nat → Except String (RlpItem × List Nat)
  | fuel, bs => do
    let (k, rest) ← parseKind bs
    match k with
    | .byteK b => .ok (.str [b], rest)
    | .strK n => do
      let (content, rest2) ← takeSize n rest
      if n = 1 ∧ content.headD 0 < 128 then .error "rlp: non-canonical size information"
      else .ok (.str content, rest2)
    | .listK n =>
      match fuel with
      | 0 => .error "rlp: fuel exhausted"
      | fuel + 1 => do
        let (content, rest2) ← takeSize n rest
        let l ← parseItemList fuel content
        .ok (.items l, rest2)

/-- Decode the elements of a generic list payload until it is exhausted. -/
def parseItemList : Nat → List Nat → Except String (List RlpItem)
  | _, [] => .ok []
  | 0, _ :: _ => .error "rlp: fuel exhausted"
  | fuel + 1, b :: bs => do
    let (i, rest) ← parseItem fuel (b :: bs)
    let l ← parseItemList fuel rest
    .ok (i :: l)

end

/-- Decode the `Clauses` field: a list whose payload is a clause sequence. -/
def parseClausesField (bs : List Nat) : Except String (List Clause × List Nat) := do
  let (k, rest) ← parseKind bs
  match k with
  | .listK n => do
    let (content, rest2) ← takeSize n rest
    let cs ← parseClauseList (content.length + 1) content
    .ok (cs, rest2)
  | _ => .error "rlp: expected input list"

/-- Decode the `Reserved` field: a list whose payload is a generic
`[]interface{}` sequence. -/
def parseReservedField (bs : List Nat) : Except String (List RlpItem × List Nat) := do
  let (k, rest) ← parseKind bs
  match k with
  | .listK n => do
    let (content, rest2) ← takeSize n rest
    let l ← parseItemList (2 * content.length + 2) content
    .ok (l, rest2)
  | _ => .error "rlp: expected input list"

/-- `s.Decode(&body)`: the ten body fields in source order, consuming the
list region exactly. -/
def parseBodyFields (content : List Nat) : Except String body := do
  let (chainTag, r1) ← parseUintN 1 content
  let (blockRef, r2) ← parseUintN 8 r1
  let (expiration, r3) ← parseUintN 4 r2
  let (clauses, r4) ← parseClausesField r3
  let (coef, r5) ← parseUintN 1 r4
  let (gas, r6) ← parseUintN 8 r5
  let (dep, r7) ← parseOptByteArray 32 r6
  let (nonce, r8) ← parseUintN 8 r7
  let (reserved, r9) ← parseReservedField r8
  let (sig, r10) ← parseStrBytes r9
  if r10.isEmpty then
    .ok ⟨chainTag, blockRef, expiration, clauses, coef, gas, dep, nonce, reserved, sig⟩
  else .error "rlp: input list has too many elements"

/-- `Transaction.DecodeRLP` as a caller reaches it through
`rlp.DecodeBytes`: `s.Kind()` bounds-checks the top-level value against the
remaining input, `s.Decode(&body)` requires a list and decodes the ten
fields, and input after the top-level value is rejected. -/
def Transaction.DecodeRLP (bs : List Nat) : Except String Transaction := do
  let (k, rest) ← parseKind bs
  match k with
  | .byteK _ => .error "rlp: expected input list"
  | .strK n =>
    if rest.length < n then .error "rlp: value size exceeds available input length"
    else .error "rlp: expected input list"
  | .listK n =>
    if rest.length < n then .error "rlp: value size exceeds available input length"
    else do
      let b ← parseBodyFields (rest.take n)
      if (rest.drop n).isEmpty then .ok ⟨b⟩
      else .error "rlp: input contains more than one value"

/-! ## Validity of transaction values

A *valid* transaction value is one a Go `tx.Transaction` can hold: byte
fields below 256, integer fields within their declared widths, fixed-width
optional fields of exactly their width, non-negative clause values, and
(vacuous in Go, explicit over `Nat`) every encoded region shorter than
`2^64` bytes, the range of go-ethereum's `uint64` sizes. -/

/-- Validity of an optional fixed-width byte field. -/
def validOptBytes (w : Nat) : Option (List Nat) → Bool
  | none => true
  | some a => a.length == w && a.all fun x => x < 256

/-- Validity of a clause value. -/
def validClause (c : Clause) : Bool :=
  validOptBytes 20 c.body.To && decide (0 ≤ c.body.Value) &&
    decide (c.body.Token < 256) && (c.body.Data.all fun x => x < 256) &&
    decide (c.body.Data.length < 2 ^ 64) &&
    decide ((beBytes c.body.Value.toNat).length < 2 ^ 64) &&
    decide ((clausePayload c).length < 2 ^ 64)

mutual

/-- Validity of a reserved-list item. -/
def validItem : RlpItem → Bool
  | .str bs => (bs.all fun x => x < 256) && decide (bs.length < 2 ^ 64)
  | .items l => decide ((encItems l).length < 2 ^ 64) && validItems l

/-- Validity of a reserved-list item sequence. -/
def validItems : List RlpItem → Bool
  | [] => true
  | i :: is => validItem i && validItems is

end

/-- Validity of a transaction value. -/
def validTx (t : Transaction) : Bool :=
  decide (t.body.ChainTag < 256) && decide (t.body.BlockRef < 2 ^ 64) &&
    decide (t.body.Expiration < 2 ^ 32) && t.body.Clauses.all validClause &&
    decide ((List.flatten (t.body.Clauses.map clauseBytes)).length < 2 ^ 64) &&
    decide (t.body.GasPriceCoef < 256) && decide (t.body.Gas < 2 ^ 64) &&
    validOptBytes 32 t.body.DependsOn && decide (t.body.Nonce < 2 ^ 64) &&
    validItems t.body.Reserved &&
    decide ((encItems t.body.Reserved).length < 2 ^ 64) &&
    (t.body.Signature.all fun x => x < 256) &&
    decide (t.body.Signature.length < 2 ^ 64) &&
    decide ((txPayload t.body).length < 2 ^ 64)

mutual

/-- Fuel adequate for `parseItem` on this item's encoding. -/
def itemFuel : RlpItem → Nat
  | .str _ => 0
  | .items l => listFuel l + 1

/-- Fuel adequate for `parseItemList` on this sequence's encoding. -/
def listFuel : List RlpItem → Nat
  | [] => 0
  | i :: is => max (itemFuel i) (listFuel is) + 1

end

/-! ## Concrete sample values (used to instantiate the theorems) -/

/-- A recovery function that fails on every signature — one admissible
behaviour of the external collaborator on malformed signature bytes. -/
def recoverNever : RecoverFn := fun _ _ => .error "invalid signature"

/-- A recovery function that recovers a fixed address from every signature. -/
def recoverConst : RecoverFn := fun _ _ => .ok (List.replicate 20 1)

/-- The all-zero-field transaction with no signature. -/
def emptyTx : Transaction := ⟨⟨0, 0, 0, [], 0, 0, none, 0, [], []⟩⟩

/-- A sample clause exercising recipient, value, token and data. -/
def sampleClause : Clause :=
  ⟨⟨some ((List.range 20).map fun i => i + 10), (2000000000000000000 : Int), 1,
    [0, 1, 128, 255]⟩⟩

/-- A second sample clause with no recipient and a long data payload. -/
def sampleClause2 : Clause := ⟨⟨none, 0, 0, List.replicate 60 7⟩⟩

/-- A sample body exercising every field: two clauses, a dependency hash, a
non-empty reserved list with nesting, and a 65-byte signature. -/
def sampleBody : body :=
  ⟨88, 1234567890123, 100, [sampleClause, sampleClause2], 128, 21000,
    some (List.replicate 32 5), 1234567,
    [.str [1, 2], .items [.str [], .str [200]], .str []],
    (List.range 65).map fun i => i + 100⟩

/-- The sample transaction. -/
def sampleTx : Transaction := ⟨sampleBody⟩

/-! ## Helper lemmas: big-endian bytes -/

theorem beBytesAux_congr (n : Nat) :
    ∀ f1 f2, n ≤ f1 → n ≤ f2 → beBytesAux f1 n = beBytesAux f2 n := by
  induction n using Nat.strong_induction_on with
  | _ n ih =>
    intro f1 f2 h1 h2
    match n, f1, f2 with
    | 0, f1, f2 => simp [beBytesAux]
    | n + 1, f1 + 1, f2 + 1 =>
      have hd : (n + 1) / 256 < n + 1 := Nat.div_lt_self (Nat.succ_pos n) (by omega)
      simp only [beBytesAux]
      rw [ih ((n + 1) / 256) hd f1 f2 (by omega) (by omega)]

theorem beBytes_pos_eq (n : Nat) (h : 0 < n) :
    beBytes n = beBytes (n / 256) ++ [n % 256] := by
  match n, h with
  | n + 1, _ =>
    have hd : (n + 1) / 256 < n + 1 := Nat.div_lt_self (Nat.succ_pos n) (by omega)
    show beBytesAux (n + 1) (n + 1) = _
    simp only [beBytesAux]
    rw [beBytesAux_congr ((n + 1) / 256) n ((n + 1) / 256) (by omega) (le_refl _)]
    rfl

theorem beBytes_all_lt (n : Nat) : ∀ x ∈ beBytes n, x < 256 := by
  induction n using Nat.strong_induction_on with
  | _ n ih =>
    rcases Nat.eq_zero_or_pos n with h | h
    · subst h; intro x hx; simp [beBytes, beBytesAux] at hx
    · rw [beBytes_pos_eq n h]
      intro x hx
      rcases List.mem_append.mp hx with hx | hx
      · exact ih (n / 256) (Nat.div_lt_self h (by omega)) x hx
      · simp at hx; subst hx; exact Nat.mod_lt _ (by omega)

theorem beValue_snoc (l : List Nat) (b : Nat) :
    beValue (l ++ [b]) = beValue l * 256 + b := by
  simp [beValue, List.foldl_append]

theorem beValue_beBytes (n : Nat) : beValue (beBytes n) = n := by
  induction n using Nat.strong_induction_on with
  | _ n ih =>
    rcases Nat.eq_zero_or_pos n with h | h
    · subst h; rfl
    · rw [beBytes_pos_eq n h, beValue_snoc,
        ih (n / 256) (Nat.div_lt_self h (by omega))]
      omega

theorem beBytes_length_le (n k : Nat) (h : n < 256 ^ k) :
    (beBytes n).length ≤ k := by
  induction n using Nat.strong_induction_on generalizing k with
  | _ n ih =>
    rcases Nat.eq_zero_or_pos n with h0 | h0
    · subst h0; simp [beBytes, beBytesAux]
    · match k with
      | 0 => simp at h; omega
      | k + 1 =>
        rw [beBytes_pos_eq n h0]
        simp only [List.length_append, List.length_cons, List.length_nil]
        have : n / 256 < 256 ^ k := by
          rw [Nat.div_lt_iff_lt_mul (by omega)]
          calc n < 256 ^ (k + 1) := h
          _ = 256 ^ k * 256 := by ring
        have := ih (n / 256) (Nat.div_lt_self h0 (by omega)) k this
        omega

theorem beBytes_ne_nil (n : Nat) (h : 0 < n) : beBytes n ≠ [] := by
  rw [beBytes_pos_eq n h]
  simp

theorem beBytes_headD_ne (n : Nat) (h : 0 < n) : (beBytes n).headD 0 ≠ 0 := by
  induction n using Nat.strong_induction_on with
  | _ n ih =>
    rw [beBytes_pos_eq n h]
    rcases Nat.lt_or_ge n 256 with hs | hs
    · have : n / 256 = 0 := Nat.div_eq_of_lt hs
      rw [this]
      show ([] ++ [n % 256]).headD 0 ≠ 0
      simpa using (by omega : n % 256 ≠ 0)
    · have hp : 0 < n / 256 := Nat.div_pos hs (by omega)
      have hne := ih (n / 256) (Nat.div_lt_self h (by omega)) hp
      rcases hn : beBytes (n / 256) with _ | ⟨a, l⟩
      · exact absurd hn (beBytes_ne_nil _ hp)
      · rw [hn] at hne
        simpa using hne

theorem beBytes_length_pos (n : Nat) (h : 0 < n) : 0 < (beBytes n).length := by
  rcases hn : beBytes n with _ | ⟨a, l⟩
  · exact absurd hn (beBytes_ne_nil _ h)
  · simp

/-! ## Helper lemmas: the parsers on encoder output -/

theorem exceptBind_ok {α β : Type} (a : α) (f : α → Except String β) :
    (Except.ok a >>= f) = f a := rfl

theorem exceptBind_err {α β : Type} (e : String) (f : α → Except String β) :
    ((Except.error e : Except String α) >>= f) = .error e := rfl

theorem takeSize_exact (bs rest : List Nat) :
    takeSize bs.length (bs ++ rest) = .ok (bs, rest) := by
  unfold takeSize
  rw [if_pos (by simp)]
  rw [List.take_left, List.drop_left]

theorem parseKind_str_short (n : Nat) (hn : n ≤ 55) (payload rest : List Nat) :
    parseKind ((encLen 128 n ++ payload) ++ rest) = .ok (.strK n, payload ++ rest) := by
  have hcons : (encLen 128 n ++ payload) ++ rest = (128 + n) :: (payload ++ rest) := by
    unfold encLen
    rw [if_pos hn]
    simp
  rw [hcons]
  simp only [parseKind]
  rw [if_neg (by omega), if_pos (by omega)]
  norm_num

theorem parseKind_str_long (n : Nat) (hn : 55 < n) (h64 : n < 2 ^ 64)
    (payload rest : List Nat) :
    parseKind ((encLen 128 n ++ payload) ++ rest) = .ok (.strK n, payload ++ rest) := by
  have hL : (beBytes n).length ≤ 8 := beBytes_length_le n 8 (by norm_num at h64 ⊢; omega)
  have hLpos : 0 < (beBytes n).length := beBytes_length_pos n (by omega)
  have hcons : (encLen 128 n ++ payload) ++ rest
      = (128 + 55 + (beBytes n).length) :: (beBytes n ++ (payload ++ rest)) := by
    unfold encLen
    rw [if_neg (by omega)]
    simp
  rw [hcons]
  simp only [parseKind]
  rw [if_neg (by omega), if_neg (by omega), if_pos (by omega)]
  rw [show 128 + 55 + (beBytes n).length - 183 = (beBytes n).length from by omega]
  rw [if_neg (by simp)]
  rw [List.take_left, List.drop_left]
  rw [if_neg (beBytes_headD_ne n (by omega)), beValue_beBytes, if_neg (by omega)]

theorem parseKind_encStrLen (n : Nat) (h64 : n < 2 ^ 64) (payload rest : List Nat) :
    parseKind ((encLen 128 n ++ payload) ++ rest) = .ok (.strK n, payload ++ rest) := by
  rcases le_or_lt n 55 with h | h
  · exact parseKind_str_short n h payload rest
  · exact parseKind_str_long n h h64 payload rest

theorem parseKind_list_short (n : Nat) (hn : n ≤ 55) (payload rest : List Nat) :
    parseKind ((encLen 192 n ++ payload) ++ rest) = .ok (.listK n, payload ++ rest) := by
  have hcons : (encLen 192 n ++ payload) ++ rest = (192 + n) :: (payload ++ rest) := by
    unfold encLen
    rw [if_pos hn]
    simp
  rw [hcons]
  simp only [parseKind]
  rw [if_neg (by omega), if_neg (by omega), if_neg (by omega), if_pos (by omega)]
  norm_num

theorem parseKind_list_long (n : Nat) (hn : 55 < n) (h64 : n < 2 ^ 64)
    (payload rest : List Nat) :
    parseKind ((encLen 192 n ++ payload) ++ rest) = .ok (.listK n, payload ++ rest) := by
  have hL : (beBytes n).length ≤ 8 := beBytes_length_le n 8 (by norm_num at h64 ⊢; omega)
  have hLpos : 0 < (beBytes n).length := beBytes_length_pos n (by omega)
  have hcons : (encLen 192 n ++ payload) ++ rest
      = (192 + 55 + (beBytes n).length) :: (beBytes n ++ (payload ++ rest)) := by
    unfold encLen
    rw [if_neg (by omega)]
    simp
  rw [hcons]
  simp only [parseKind]
  rw [if_neg (by omega), if_neg (by omega), if_neg (by omega), if_neg (by omega)]
  rw [show 192 + 55 + (beBytes n).length - 247 = (beBytes n).length from by omega]
  rw [if_neg (by simp)]
  rw [List.take_left, List.drop_left]
  rw [if_neg (beBytes_headD_ne n (by omega)), beValue_beBytes, if_neg (by omega)]

theorem parseKind_encListLen (n : Nat) (h64 : n < 2 ^ 64) (payload rest : List Nat) :
    parseKind ((encLen 192 n ++ payload) ++ rest) = .ok (.listK n, payload ++ rest) := by
  rcases le_or_lt n 55 with h | h
  · exact parseKind_list_short n h payload rest
  · exact parseKind_list_long n h h64 payload rest

theorem parseStrBytes_encStr (bs : List Nat) (hb : ∀ x ∈ bs, x < 256)
    (h64 : bs.length < 2 ^ 64) (rest : List Nat) :
    parseStrBytes (encStr bs ++ rest) = .ok (bs, rest) := by
  match bs, hb with
  | [b], hb =>
    rcases Nat.lt_or_ge b 128 with hlt | hge
    · show parseStrBytes ((if b < 128 then [b] else encLen 128 1 ++ [b]) ++ rest) = _
      rw [if_pos hlt]
      unfold parseStrBytes
      show (parseKind (b :: rest) >>= _) = _
      rw [show parseKind (b :: rest) = .ok (.byteK b, rest) from by
        simp only [parseKind]
        rw [if_pos hlt]]
      rw [exceptBind_ok]
    · show parseStrBytes ((if b < 128 then [b] else encLen 128 1 ++ [b]) ++ rest) = _
      rw [if_neg (by omega)]
      unfold parseStrBytes
      rw [parseKind_encStrLen 1 (by norm_num) [b] rest, exceptBind_ok]
      simp only []
      rw [show (1 : Nat) = [b].length from rfl, takeSize_exact, exceptBind_ok]
      rw [if_neg (by simp; omega)]
  | [], _ =>
    unfold parseStrBytes
    rw [show encStr [] ++ rest = (encLen 128 0 ++ []) ++ rest from rfl]
    rw [parseKind_encStrLen 0 (by norm_num) [] rest, exceptBind_ok]
    simp only []
    rw [show (0 : Nat) = ([] : List Nat).length from rfl, takeSize_exact, exceptBind_ok]
    rw [if_neg (by simp)]
  | a :: b :: l, hb =>
    unfold parseStrBytes
    rw [show encStr (a :: b :: l) ++ rest
      = (encLen 128 (a :: b :: l).length ++ (a :: b :: l)) ++ rest from rfl]
    rw [parseKind_encStrLen (a :: b :: l).length h64 (a :: b :: l) rest, exceptBind_ok]
    simp only []
    rw [takeSize_exact, exceptBind_ok]
    rw [if_neg (by simp)]

theorem parseUintN_encUint (maxBytes n : Nat) (hw : maxBytes ≤ 8)
    (hn : n < 256 ^ maxBytes) (rest : List Nat) :
    parseUintN maxBytes (encUint n ++ rest) = .ok (n, rest) := by
  have h64 : n < 2 ^ 64 := by
    calc n < 256 ^ maxBytes := hn
    _ ≤ 256 ^ 8 := Nat.pow_le_pow_right (by omega) hw
    _ = 2 ^ 64 := by norm_num
  rcases Nat.eq_zero_or_pos n with h0 | h0
  · subst h0
    unfold parseUintN
    rw [show encUint 0 ++ rest = (encLen 128 0 ++ []) ++ rest from rfl]
    rw [parseKind_encStrLen 0 (by norm_num) [] rest, exceptBind_ok]
    simp only []
    rw [if_neg (by omega), show (0 : Nat) = ([] : List Nat).length from rfl,
      takeSize_exact, exceptBind_ok]
    rw [if_neg (by simp), if_neg (by simp [beValue])]
    simp [beValue]
  · rcases Nat.lt_or_ge n 128 with hlt | hge
    · have hbe : beBytes n = [n] := by
        rw [beBytes_pos_eq n h0, Nat.div_eq_of_lt (by omega), Nat.mod_eq_of_lt (by omega)]
        rfl
      unfold parseUintN
      rw [show encUint n ++ rest = n :: rest from by
        unfold encUint
        rw [hbe]
        show (if n < 128 then [n] else _) ++ rest = _
        rw [if_pos hlt]
        rfl]
      show (parseKind (n :: rest) >>= _) = _
      rw [show parseKind (n :: rest) = .ok (.byteK n, rest) from by
        simp only [parseKind]
        rw [if_pos hlt]]
      rw [exceptBind_ok]
      simp only []
      rw [if_neg (by omega)]
    · have hL1 : 0 < (beBytes n).length := beBytes_length_pos n h0
      have hLm : (beBytes n).length ≤ maxBytes := beBytes_length_le n maxBytes hn
      have hstr : encUint n = encLen 128 (beBytes n).length ++ beBytes n := by
        unfold encUint
        rcases hbe : beBytes n with _ | ⟨x, xl⟩
        · exact absurd hbe (beBytes_ne_nil n h0)
        · match xl with
          | [] =>
            have hx : x = n := by
              have := beValue_beBytes n
              rw [hbe] at this
              simpa [beValue] using this
            show (if x < 128 then [x] else encLen 128 1 ++ [x]) = _
            rw [if_neg (by omega)]
            rfl
          | y :: yl => rfl
      unfold parseUintN
      rw [show encUint n ++ rest = (encLen 128 (beBytes n).length ++ beBytes n) ++ rest from by
        rw [hstr]]
      rw [parseKind_encStrLen (beBytes n).length (by omega) (beBytes n) rest, exceptBind_ok]
      simp only []
      rw [if_neg (by omega), takeSize_exact, exceptBind_ok]
      rw [if_neg (by
        intro hcon
        rcases hcon with ⟨h2, hz⟩
        rcases hbe : beBytes n with _ | ⟨x, xl⟩
        · exact absurd hbe (beBytes_ne_nil n h0)
        · have hhd := beBytes_headD_ne n h0
          rw [hbe] at hhd hz
          simp at hhd hz
          omega)]
      rw [beValue_beBytes, if_neg (by omega)]

theorem parseBigInt_enc (v : Int) (hv : 0 ≤ v)
    (h64 : (beBytes v.toNat).length < 2 ^ 64) (rest : List Nat) :
    parseBigInt (encStr (beBytes v.toNat) ++ rest) = .ok (v, rest) := by
  unfold parseBigInt
  rw [parseStrBytes_encStr (beBytes v.toNat) (beBytes_all_lt _) h64 rest, exceptBind_ok]
  simp only []
  rcases Nat.eq_zero_or_pos v.toNat with h0 | h0
  · rw [h0]
    show (if (beBytes 0).headD 1 = 0 then _ else Except.ok ((beValue (beBytes 0) : Int), rest)) = _
    rw [if_neg (by simp [beBytes, beBytesAux])]
    have : ((beValue (beBytes 0) : Nat) : Int) = v := by
      rw [beValue_beBytes]
      omega
    rw [this]
  · rw [if_neg (by
      have := beBytes_headD_ne v.toNat h0
      rcases hbe : beBytes v.toNat with _ | ⟨x, xl⟩
      · exact absurd hbe (beBytes_ne_nil _ h0)
      · rw [hbe] at this
        simpa using this)]
    rw [beValue_beBytes]
    have : ((v.toNat : Nat) : Int) = v := Int.toNat_of_nonneg hv
    rw [this]

theorem encStr_eq_of_len (bs : List Nat) (h : bs.length ≠ 1) :
    encStr bs = encLen 128 bs.length ++ bs := by
  match bs with
  | [] => rfl
  | [b] => simp at h
  | a :: b :: l => rfl

theorem parseOptByteArray_none (w : Nat) (rest : List Nat) :
    parseOptByteArray w ([128] ++ rest) = .ok (none, rest) := by
  unfold parseOptByteArray
  rw [List.singleton_append]
  rw [show parseKind (128 :: rest) = .ok (.strK 0, rest) from by
    simp only [parseKind]
    rw [if_neg (by omega), if_pos (by omega)]]
  rw [exceptBind_ok]

theorem parseOptByteArray_some (k : Nat) (bs : List Nat) (h55 : bs.length ≤ 55)
    (hlen : bs.length = k + 2) (rest : List Nat) :
    parseOptByteArray (k + 2) (encStr bs ++ rest) = .ok (some bs, rest) := by
  unfold parseOptByteArray
  rw [encStr_eq_of_len bs (by omega), hlen]
  rw [parseKind_encStrLen (k + 2) (by omega) bs rest, exceptBind_ok]
  simp only [parseByteArrayK]
  rw [if_neg (by omega), if_neg (by omega)]
  rw [show k + 2 = bs.length from hlen.symm, takeSize_exact, exceptBind_ok]
  rw [if_neg (by omega)]
  rfl

theorem parseClause_enc (c : Clause) (hv : validClause c = true) (rest : List Nat) :
    parseClause (clauseBytes c ++ rest) = .ok (c, rest) := by
  simp only [validClause, Bool.and_eq_true, decide_eq_true_eq, List.all_eq_true] at hv
  obtain ⟨⟨⟨⟨⟨⟨hto, hval⟩, htok⟩, hdata⟩, hdlen⟩, hvlen⟩, hplen⟩ := hv
  unfold parseClause
  rw [show clauseBytes c ++ rest
    = (encLen 192 (clausePayload c).length ++ clausePayload c) ++ rest from rfl]
  rw [parseKind_encListLen (clausePayload c).length hplen (clausePayload c) rest,
    exceptBind_ok]
  simp only []
  rw [takeSize_exact, exceptBind_ok]
  simp only [clausePayload, List.append_assoc]
  have hfield1 : ∀ r, parseOptByteArray 20 (encOptBytes c.body.To ++ r)
      = .ok (c.body.To, r) := by
    intro r
    match hteq : c.body.To with
    | none => exact parseOptByteArray_none 20 r
    | some a =>
      rw [hteq] at hto
      simp only [validOptBytes, Bool.and_eq_true, List.all_eq_true, beq_iff_eq] at hto
      obtain ⟨halen, habytes⟩ := hto
      show parseOptByteArray (18 + 2) (encStr a ++ r) = _
      exact parseOptByteArray_some 18 a (by omega) (by omega) r
  rw [hfield1, exceptBind_ok]
  simp only []
  rw [parseBigInt_enc c.body.Value hval hvlen, exceptBind_ok]
  simp only []
  rw [parseUintN_encUint 1 c.body.Token (by omega) (by simpa using htok), exceptBind_ok]
  simp only []
  rw [show encStr c.body.Data = encStr c.body.Data ++ [] from (List.append_nil _).symm]
  rw [parseStrBytes_encStr c.body.Data (fun x hx => by simpa using hdata x hx) hdlen [],
    exceptBind_ok]
  rfl

theorem encLen_length_pos (off n : Nat) : 0 < (encLen off n).length := by
  unfold encLen
  split
  · simp
  · simp

theorem encStr_length_pos (bs : List Nat) : 0 < (encStr bs).length := by
  match bs with
  | [] => simp [encStr, encLen]
  | [b] =>
    show 0 < (if b < 128 then [b] else encLen 128 1 ++ [b]).length
    split
    · simp
    · simp
  | a :: b :: l =>
    show 0 < (encLen 128 (a :: b :: l).length ++ (a :: b :: l)).length
    simp

theorem encList_length_pos (p : List Nat) : 0 < (encList p).length := by
  unfold encList
  have := encLen_length_pos 192 p.length
  simp only [List.length_append]
  omega

theorem encItem_length_pos (i : RlpItem) : 0 < (encItem i).length := by
  match i with
  | .str bs => exact encStr_length_pos bs
  | .items l => exact encList_length_pos (encItems l)

theorem clauseBytes_length_pos (c : Clause) : 0 < (clauseBytes c).length :=
  encList_length_pos (clausePayload c)

theorem length_le_flatten_clauseBytes (cs : List Clause) :
    cs.length ≤ (List.flatten (cs.map clauseBytes)).length := by
  induction cs with
  | nil => simp
  | cons c cs ih =>
    simp only [List.map_cons, List.flatten_cons, List.length_append, List.length_cons]
    have := clauseBytes_length_pos c
    omega

theorem parseClauseList_nil (fuel : Nat) : parseClauseList fuel [] = .ok [] := by
  match fuel with
  | 0 => rfl
  | _ + 1 => rfl

theorem parseClauseList_cons_eq (fuel : Nat) (b : Nat) (bs : List Nat) :
    parseClauseList (fuel + 1) (b :: bs) = (do
      let (c, rest) ← parseClause (b :: bs)
      let cs ← parseClauseList fuel rest
      pure (c :: cs)) := rfl

theorem parseClauseList_enc (cs : List Clause) (hv : ∀ c ∈ cs, validClause c = true) :
    ∀ fuel, cs.length < fuel →
      parseClauseList fuel (List.flatten (cs.map clauseBytes)) = .ok cs := by
  induction cs with
  | nil =>
    intro fuel _
    simpa using parseClauseList_nil fuel
  | cons c cs ih =>
    intro fuel hf
    match fuel, hf with
    | fuel + 1, hff =>
      simp only [List.map_cons, List.flatten_cons]
      have hpos := clauseBytes_length_pos c
      rcases hb : clauseBytes c ++ List.flatten (cs.map clauseBytes) with _ | ⟨b, bs⟩
      · exact absurd (congrArg List.length hb) (by
          simp only [List.length_append, List.length_nil]
          omega)
      · rw [parseClauseList_cons_eq fuel b bs, hb.symm]
        rw [parseClause_enc c (hv c (by simp)) (List.flatten (cs.map clauseBytes)),
          exceptBind_ok]
        simp only []
        rw [ih (fun x hx => hv x (by simp [hx])) fuel
          (by simp only [List.length_cons] at hff; omega), exceptBind_ok]
        rfl

theorem parseItem_encStr (fuel : Nat) (bs : List Nat) (hb : ∀ x ∈ bs, x < 256)
    (h64 : bs.length < 2 ^ 64) (rest : List Nat) :
    parseItem fuel (encStr bs ++ rest) = .ok (.str bs, rest) := by
  match bs, hb with
  | [b], hb =>
    rcases Nat.lt_or_ge b 128 with hlt | hge
    · show parseItem fuel ((if b < 128 then [b] else encLen 128 1 ++ [b]) ++ rest) = _
      rw [if_pos hlt]
      unfold parseItem
      rw [List.singleton_append]
      rw [show parseKind (b :: rest) = .ok (.byteK b, rest) from by
        simp only [parseKind]
        rw [if_pos hlt]]
      rw [exceptBind_ok]
    · show parseItem fuel ((if b < 128 then [b] else encLen 128 1 ++ [b]) ++ rest) = _
      rw [if_neg (by omega)]
      unfold parseItem
      rw [parseKind_encStrLen 1 (by norm_num) [b] rest, exceptBind_ok]
      simp only []
      rw [show (1 : Nat) = [b].length from rfl, takeSize_exact, exceptBind_ok]
      rw [if_neg (by simp; omega)]
  | [], _ =>
    unfold parseItem
    rw [show encStr [] ++ rest = (encLen 128 0 ++ []) ++ rest from rfl]
    rw [parseKind_encStrLen 0 (by norm_num) [] rest, exceptBind_ok]
    simp only []
    rw [show (0 : Nat) = ([] : List Nat).length from rfl, takeSize_exact, exceptBind_ok]
    rw [if_neg (by simp)]
  | a :: b :: l, hb =>
    unfold parseItem
    rw [show encStr (a :: b :: l) ++ rest
      = (encLen 128 (a :: b :: l).length ++ (a :: b :: l)) ++ rest from rfl]
    rw [parseKind_encStrLen (a :: b :: l).length h64 (a :: b :: l) rest, exceptBind_ok]
    simp only []
    rw [takeSize_exact, exceptBind_ok]
    rw [if_neg (by simp)]

theorem parseItemList_nil (fuel : Nat) : parseItemList fuel [] = .ok [] := by
  match fuel with
  | 0 => rfl
  | _ + 1 => rfl

theorem parseItemList_cons_eq (fuel : Nat) (b : Nat) (bs : List Nat) :
    parseItemList (fuel + 1) (b :: bs) = (do
      let (i, rest) ← parseItem fuel (b :: bs)
      let l ← parseItemList fuel rest
      pure (i :: l)) := rfl

mutual

theorem parseItem_encItem (i : RlpItem) (hv : validItem i = true) (rest : List Nat) :
    ∀ fuel, itemFuel i ≤ fuel → parseItem fuel (encItem i ++ rest) = .ok (i, rest) := by
  match i with
  | .str bs =>
    simp only [validItem, Bool.and_eq_true, decide_eq_true_eq, List.all_eq_true] at hv
    obtain ⟨hb, h64⟩ := hv
    intro fuel _
    show parseItem fuel (encStr bs ++ rest) = _
    exact parseItem_encStr fuel bs (fun x hx => by simpa using hb x hx) h64 rest
  | .items l =>
    simp only [validItem, Bool.and_eq_true, decide_eq_true_eq] at hv
    obtain ⟨h64, hvl⟩ := hv
    intro fuel hfl
    match fuel, hfl with
    | fuel + 1, hfl2 =>
      show parseItem (fuel + 1)
        ((encLen 192 (encItems l).length ++ encItems l) ++ rest) = _
      unfold parseItem
      rw [parseKind_encListLen (encItems l).length h64 (encItems l) rest, exceptBind_ok]
      simp only []
      rw [takeSize_exact, exceptBind_ok]
      simp only []
      rw [parseItemList_encItems l hvl fuel (by
        simp only [itemFuel] at hfl2
        omega), exceptBind_ok]

theorem parseItemList_encItems (l : List RlpItem) (hv : validItems l = true) :
    ∀ fuel, listFuel l ≤ fuel → parseItemList fuel (encItems l) = .ok l := by
  match l with
  | [] =>
    intro fuel _
    show parseItemList fuel [] = _
    exact parseItemList_nil fuel
  | i :: is =>
    simp only [validItems, Bool.and_eq_true] at hv
    obtain ⟨hvi, hvis⟩ := hv
    intro fuel hfl
    match fuel, hfl with
    | fuel + 1, hfl2 =>
      show parseItemList (fuel + 1) (encItem i ++ encItems is) = _
      have hpos := encItem_length_pos i
      rcases hb : encItem i ++ encItems is with _ | ⟨b, bs⟩
      · exact absurd (congrArg List.length hb) (by
          simp only [List.length_append, List.length_nil]
          omega)
      · rw [parseItemList_cons_eq fuel b bs, hb.symm]
        rw [parseItem_encItem i hvi (encItems is) fuel (by
          simp only [listFuel] at hfl2
          omega), exceptBind_ok]
        simp only []
        rw [parseItemList_encItems is hvis fuel (by
          simp only [listFuel] at hfl2
          omega), exceptBind_ok]
        rfl

end

mutual

theorem itemFuel_lt (i : RlpItem) : itemFuel i < 2 * (encItem i).length := by
  match i with
  | .str bs =>
    have := encStr_length_pos bs
    show itemFuel (.str bs) < 2 * (encStr bs).length
    simp only [itemFuel]
    omega
  | .items l =>
    have hl := listFuel_le l
    have hh := encLen_length_pos 192 (encItems l).length
    show listFuel l + 1 < 2 * (encLen 192 (encItems l).length ++ encItems l).length
    simp only [List.length_append]
    omega

theorem listFuel_le (l : List RlpItem) : listFuel l ≤ 2 * (encItems l).length := by
  match l with
  | [] => simp [listFuel, encItems]
  | i :: is =>
    have h1 := itemFuel_lt i
    have h2 := listFuel_le is
    have hpos := encItem_length_pos i
    show max (itemFuel i) (listFuel is) + 1 ≤ 2 * (encItem i ++ encItems is).length
    simp only [List.length_append]
    omega

end

theorem parseClausesField_enc (cs : List Clause) (hv : ∀ c ∈ cs, validClause c = true)
    (h64 : (List.flatten (cs.map clauseBytes)).length < 2 ^ 64) (rest : List Nat) :
    parseClausesField (encList (List.flatten (cs.map clauseBytes)) ++ rest)
      = .ok (cs, rest) := by
  unfold parseClausesField
  rw [show encList (List.flatten (cs.map clauseBytes)) ++ rest
    = (encLen 192 (List.flatten (cs.map clauseBytes)).length
        ++ List.flatten (cs.map clauseBytes)) ++ rest from rfl]
  rw [parseKind_encListLen (List.flatten (cs.map clauseBytes)).length h64
    (List.flatten (cs.map clauseBytes)) rest, exceptBind_ok]
  simp only []
  rw [takeSize_exact, exceptBind_ok]
  simp only []
  rw [parseClauseList_enc cs hv ((List.flatten (cs.map clauseBytes)).length + 1) (by
    have := length_le_flatten_clauseBytes cs
    omega), exceptBind_ok]

theorem parseReservedField_enc (l : List RlpItem) (hv : validItems l = true)
    (h64 : (encItems l).length < 2 ^ 64) (rest : List Nat) :
    parseReservedField (encList (encItems l) ++ rest) = .ok (l, rest) := by
  unfold parseReservedField
  rw [show encList (encItems l) ++ rest
    = (encLen 192 (encItems l).length ++ encItems l) ++ rest from rfl]
  rw [parseKind_encListLen (encItems l).length h64 (encItems l) rest, exceptBind_ok]
  simp only []
  rw [takeSize_exact, exceptBind_ok]
  simp only []
  rw [parseItemList_encItems l hv (2 * (encItems l).length + 2) (by
    have := listFuel_le l
    omega), exceptBind_ok]

theorem parseBodyFields_enc (t : Transaction) (hv : validTx t = true) :
    parseBodyFields (txPayload t.body) = .ok t.body := by
  simp only [validTx, Bool.and_eq_true, decide_eq_true_eq, List.all_eq_true] at hv
  obtain ⟨⟨⟨⟨⟨⟨⟨⟨⟨⟨⟨⟨⟨hchain, hbref⟩, hexp⟩, hcl⟩, hcllen⟩, hcoef⟩, hgas⟩,
    hdep⟩, hnonce⟩, hres⟩, hreslen⟩, hsig⟩, hsiglen⟩, hplen⟩ := hv
  have h256_8 : (256 : Nat) ^ 8 = 2 ^ 64 := by norm_num
  have h256_4 : (256 : Nat) ^ 4 = 2 ^ 32 := by norm_num
  unfold parseBodyFields
  simp only [txPayload, signingPayload, List.append_assoc]
  rw [parseUintN_encUint 1 t.body.ChainTag (by omega) (by simpa using hchain),
    exceptBind_ok]
  simp only []
  rw [parseUintN_encUint 8 t.body.BlockRef (by omega) (by omega), exceptBind_ok]
  simp only []
  rw [parseUintN_encUint 4 t.body.Expiration (by omega) (by omega), exceptBind_ok]
  simp only []
  rw [parseClausesField_enc t.body.Clauses (fun c hc => hcl c hc) hcllen, exceptBind_ok]
  simp only []
  rw [parseUintN_encUint 1 t.body.GasPriceCoef (by omega) (by simpa using hcoef),
    exceptBind_ok]
  simp only []
  rw [parseUintN_encUint 8 t.body.Gas (by omega) (by omega), exceptBind_ok]
  simp only []
  have hfield7 : ∀ r, parseOptByteArray 32 (encOptBytes t.body.DependsOn ++ r)
      = .ok (t.body.DependsOn, r) := by
    intro r
    match hdeq : t.body.DependsOn with
    | none => exact parseOptByteArray_none 32 r
    | some a =>
      rw [hdeq] at hdep
      simp only [validOptBytes, Bool.and_eq_true, List.all_eq_true, beq_iff_eq] at hdep
      obtain ⟨halen, habytes⟩ := hdep
      show parseOptByteArray (30 + 2) (encStr a ++ r) = _
      exact parseOptByteArray_some 30 a (by omega) (by omega) r
  rw [hfield7, exceptBind_ok]
  simp only []
  rw [parseUintN_encUint 8 t.body.Nonce (by omega) (by omega), exceptBind_ok]
  simp only []
  rw [parseReservedField_enc t.body.Reserved hres hreslen, exceptBind_ok]
  simp only []
  rw [show encStr t.body.Signature = encStr t.body.Signature ++ [] from
    (List.append_nil _).symm]
  rw [parseStrBytes_encStr t.body.Signature (fun x hx => by simpa using hsig x hx)
    hsiglen [], exceptBind_ok]
  rfl

theorem signingPayload_length_le (b : body) :
    (signingPayload b).length ≤ (txPayload b).length := by
  simp only [txPayload, List.length_append]
  omega

theorem txPayload_length_pos (b : body) : 0 < (txPayload b).length := by
  simp only [txPayload, List.length_append]
  have := encStr_length_pos b.Signature
  omega

theorem decodeRLP_txBytes (t : Transaction) (hv : validTx t = true) :
    Transaction.DecodeRLP (txBytes t.body) = .ok t := by
  have hplen : (txPayload t.body).length < 2 ^ 64 := by
    simp only [validTx, Bool.and_eq_true, decide_eq_true_eq] at hv
    exact hv.2
  unfold Transaction.DecodeRLP txBytes encList
  rw [show encLen 192 (txPayload t.body).length ++ txPayload t.body
    = (encLen 192 (txPayload t.body).length ++ txPayload t.body) ++ [] from
    (List.append_nil _).symm]
  rw [parseKind_encListLen (txPayload t.body).length hplen (txPayload t.body) [],
    exceptBind_ok]
  simp only [List.append_nil]
  rw [if_neg (by omega)]
  rw [List.take_length, List.drop_length]
  rw [parseBodyFields_enc t hv, exceptBind_ok]
  rfl

theorem decodeRLP_truncated (t : Transaction) (hv : validTx t = true) :
    Transaction.DecodeRLP ((txBytes t.body).dropLast)
      = .error "rlp: value size exceeds available input length" := by
  have hplen : (txPayload t.body).length < 2 ^ 64 := by
    simp only [validTx, Bool.and_eq_true, decide_eq_true_eq] at hv
    exact hv.2
  have hpos := txPayload_length_pos t.body
  have hne : txPayload t.body ≠ [] := List.length_pos.mp hpos
  unfold Transaction.DecodeRLP txBytes encList
  rw [show (encLen 192 (txPayload t.body).length ++ txPayload t.body).dropLast
    = encLen 192 (txPayload t.body).length ++ (txPayload t.body).dropLast from by
    simp [List.dropLast_append, hne]]
  rw [show encLen 192 (txPayload t.body).length ++ (txPayload t.body).dropLast
    = (encLen 192 (txPayload t.body).length ++ (txPayload t.body).dropLast) ++ [] from
    (List.append_nil _).symm]
  rw [parseKind_encListLen (txPayload t.body).length hplen
    ((txPayload t.body).dropLast) [], exceptBind_ok]
  simp only [List.append_nil]
  rw [if_pos (by
    rw [List.length_dropLast]
    omega)]

/-! ## Helper lemmas: hex parsing -/

theorem hexDecode_ok_iff : ∀ s : List Char,
    (∃ v, hexDecode s = .ok v) ↔ (s.length % 2 = 0 ∧ allHex s = true)
  | [] => by simp [hexDecode, allHex]
  | [a] => by simp [hexDecode, allHex]
  | a :: b :: rest => by
    have ih := hexDecode_ok_iff rest
    rcases hva : hexVal a with _ | va
    · simp [hexDecode, hva, allHex]
    · rcases hvb : hexVal b with _ | vb
      · simp [hexDecode, hva, hvb, allHex]
      · have heq : hexDecode (a :: b :: rest) = (match hexDecode rest with
            | .error e => .error e
            | .ok bs => .ok ((va * 16 + vb) :: bs)) := by
          simp [hexDecode, hva, hvb]
        rcases hr : hexDecode rest with e | v
        · rw [hr] at heq
          have hRest : ¬(rest.length % 2 = 0 ∧ allHex rest = true) := fun h => by
            rcases ih.mpr h with ⟨w, hw⟩
            rw [hr] at hw
            simp at hw
          constructor
          · rintro ⟨w, hw⟩
            rw [heq] at hw
            simp at hw
          · rintro ⟨hl, hall⟩
            simp only [allHex, List.all_cons, hva, hvb, Option.isSome_some,
              Bool.true_and] at hall
            refine absurd ⟨?_, hall⟩ hRest
            simp only [List.length_cons] at hl
            omega
        · rw [hr] at heq
          have hRest := ih.mp ⟨v, hr⟩
          constructor
          · rintro ⟨w, hw⟩
            refine ⟨?_, ?_⟩
            · simp only [List.length_cons]
              omega
            · simp only [allHex, List.all_cons, hva, hvb, Option.isSome_some,
                Bool.true_and]
              exact hRest.2
          · rintro ⟨hl, hall⟩
            exact ⟨(va * 16 + vb) :: v, by rw [heq]⟩
  termination_by s => s.length

theorem hexDecode_err_of_nonhex : ∀ s : List Char, s.length % 2 = 0 →
    allHex s = false → hexDecode s = .error "encoding/hex: invalid byte"
  | [], _, hbad => by simp [allHex] at hbad
  | [a], heven, _ => by simp at heven
  | a :: b :: rest, heven, hbad => by
    rcases hva : hexVal a with _ | va
    · simp [hexDecode, hva]
    · rcases hvb : hexVal b with _ | vb
      · simp [hexDecode, hva, hvb]
      · have hrest : allHex rest = false := by
          simp only [allHex, List.all_cons, hva, hvb, Option.isSome_some,
            Bool.true_and] at hbad
          exact hbad
        have ih := hexDecode_err_of_nonhex rest (by
          simp only [List.length_cons] at heven
          omega) hrest
        simp [hexDecode, hva, hvb, ih]
  termination_by s => s.length

/-! ## Helper lemmas: block reference -/

theorem blockRefNumber_eq (t : Transaction) (h : t.body.BlockRef < 2 ^ 64) :
    BlockRefNumber t.blockRefBytes = t.body.BlockRef / 2 ^ 32 := by
  unfold BlockRefNumber Transaction.blockRefBytes
  rw [show List.range 8 = [0, 1, 2, 3, 4, 5, 6, 7] from rfl]
  simp only [List.map_cons, List.map_nil]
  show beValue [t.body.BlockRef >>> (8 * (7 - 0)) % 256, t.body.BlockRef >>> (8 * (7 - 1)) % 256,
    t.body.BlockRef >>> (8 * (7 - 2)) % 256, t.body.BlockRef >>> (8 * (7 - 3)) % 256]
    = t.body.BlockRef / 2 ^ 32
  simp only [beValue, List.foldl_cons, List.foldl_nil, Nat.shiftRight_eq_div_pow]
  omega

/-! ## Claims -/

/-- **C5** — `IsExpired(N)` is true exactly when `N > H + E` for `H` the
blockRef height and `E` the expiration, the sum widened to 64 bits so it
never wraps (`H = blockRef / 2^32`, both summands below `2^32`); at the
boundary `IsExpired(H+E)` is false and `IsExpired(H+E+1)` is true whenever
representable as a `u32` block number. -/
theorem C5_isExpired_boundary (t : Transaction) (N : Nat)
    (hbr : t.body.BlockRef < 2 ^ 64) (hexp : t.body.Expiration < 2 ^ 32)
    (hN : N < 2 ^ 32) :
    BlockRefNumber t.blockRefBytes = t.body.BlockRef / 2 ^ 32 ∧
    (t.IsExpired N = true ↔
      N > BlockRefNumber t.blockRefBytes + t.body.Expiration) ∧
    (BlockRefNumber t.blockRefBytes + t.body.Expiration < 2 ^ 32 →
      t.IsExpired (BlockRefNumber t.blockRefBytes + t.body.Expiration) = false) ∧
    (BlockRefNumber t.blockRefBytes + t.body.Expiration + 1 < 2 ^ 32 →
      t.IsExpired (BlockRefNumber t.blockRefBytes + t.body.Expiration + 1) = true) := by
  refine ⟨blockRefNumber_eq t hbr, ?_, ?_, ?_⟩
  · simp [Transaction.IsExpired]
  · intro _
    simp [Transaction.IsExpired]
  · intro _
    simp [Transaction.IsExpired]

/-- Witness for C5 at the sample transaction (`BlockRef = 1234567890123`,
height `287`, expiration `100`) and block number `1000`. -/
theorem C5_isExpired_boundary_witness :
    sampleTx.body.BlockRef < 2 ^ 64 ∧
    (sampleTx.IsExpired 1000 = true ↔
      1000 > BlockRefNumber sampleTx.blockRefBytes + sampleTx.body.Expiration) ∧
    sampleTx.IsExpired
      (BlockRefNumber sampleTx.blockRefBytes + sampleTx.body.Expiration) = false :=
  ⟨by decide,
    (C5_isExpired_boundary sampleTx 1000 (by decide) (by decide) (by decide)).2.1,
    (C5_isExpired_boundary sampleTx 1000 (by decide) (by decide)
      (by decide)).2.2.1 (by decide)⟩

/-- **C6** — `GasPrice(b)` is `b + ⌊b·coef/255⌋` in exact arbitrary-precision
integer arithmetic (floor division, no overflow), and in particular `200`
for `b = 100, coef = 255` and `100` for `b = 100, coef = 0`. -/
theorem C6_gasPrice_formula (t : Transaction) (b : Int) (hb : 0 ≤ b) :
    t.GasPrice b = b + Int.fdiv (b * (t.body.GasPriceCoef : Int)) 255 ∧
    (t.body.GasPriceCoef = 255 → t.GasPrice 100 = 200) ∧
    (t.body.GasPriceCoef = 0 → t.GasPrice 100 = 100) := by
  refine ⟨?_, ?_, ?_⟩
  · unfold Transaction.GasPrice
    rw [Int.add_comm, Int.mul_comm]
    congr 1
    rw [Int.fdiv_eq_ediv _ (by omega)]
    rfl
  · intro h
    unfold Transaction.GasPrice
    rw [h]
    decide
  · intro h
    unfold Transaction.GasPrice
    rw [h]
    decide

/-- Witness for C6 at the sample transaction (`coef = 128`) and base price
`1000`, and at modified coefficients `255` / `0` with base `100`. -/
theorem C6_gasPrice_formula_witness :
    sampleTx.GasPrice 1000
      = 1000 + Int.fdiv (1000 * (sampleTx.body.GasPriceCoef : Int)) 255 ∧
    Transaction.GasPrice ⟨{ sampleBody with GasPriceCoef := 255 }⟩ 100 = 200 ∧
    Transaction.GasPrice ⟨{ sampleBody with GasPriceCoef := 0 }⟩ 100 = 100 :=
  ⟨(C6_gasPrice_formula sampleTx 1000 (by decide)).1,
    (C6_gasPrice_formula ⟨{ sampleBody with GasPriceCoef := 255 }⟩ 100 (by decide)).2.1 rfl,
    (C6_gasPrice_formula ⟨{ sampleBody with GasPriceCoef := 0 }⟩ 100 (by decide)).2.2 rfl⟩

/-- **C10** — with an empty signature, `Signer` returns the all-zero address
and *no* error, so its result is indistinguishable from that of any
transaction whose signer recovers to the zero address. -/
theorem C10_signer_empty_zero_address (recover : RecoverFn) (t : Transaction)
    (h : t.body.Signature = []) :
    t.Signer recover = .ok zeroAddress ∧
    (∀ t2 : Transaction, t2.Signer recover = .ok zeroAddress →
      t.Signer recover = t2.Signer recover) := by
  have h1 : t.Signer recover = .ok zeroAddress := by
    unfold Transaction.Signer
    rw [h]
    rfl
  exact ⟨h1, fun t2 h2 => h1.trans h2.symm⟩

/-- Witness for C10 at the unsigned empty transaction. -/
theorem C10_signer_empty_zero_address_witness :
    emptyTx.Signer recoverNever = .ok zeroAddress :=
  (C10_signer_empty_zero_address recoverNever emptyTx rfl).1

/-- **C2** — the signing hash ignores the signature: `WithSignature` leaves
it unchanged, and it is the blake2b-256 digest of the canonical RLP list of
exactly the nine body fields in source order (`signingEncoding` /
`signingPayload`). -/
theorem C2_signingHash_excludes_signature (t : Transaction) (sig : List Nat) :
    (t.WithSignature sig).SigningHash = t.SigningHash ∧
    (∀ bs, signingEncoding t = .ok bs → t.SigningHash = blake2b256 bs) := by
  constructor
  · rfl
  · intro bs h
    unfold Transaction.SigningHash
    rw [h]

/-- Witness for C2 at the sample transaction and signature `[9]`. -/
theorem C2_signingHash_excludes_signature_witness :
    (sampleTx.WithSignature [9]).SigningHash = sampleTx.SigningHash ∧
    sampleTx.SigningHash = blake2b256 (encList (signingPayload sampleBody)) :=
  ⟨(C2_signingHash_excludes_signature sampleTx [9]).1,
    (C2_signingHash_excludes_signature sampleTx [9]).2
      (encList (signingPayload sampleBody)) rfl⟩

/-- **C1 counterexample** — the all-zero-field transaction carries no
signature, yet its `ID` is *not* the all-zero Hash32: `Signer` returns the
zero address with no error, so `ID` digests
`signingHash ++ zeroAddress` instead of returning the sentinel. (The
recovery collaborator is never consulted for an empty signature.) -/
theorem C1_counterexample :
    emptyTx.body.Signature = [] ∧ emptyTx.ID recoverNever ≠ zeroBytes32 :=
  ⟨rfl, by decide⟩

/-- **C1 amended** — an unsigned transaction's `ID` is the digest of
`signingHash ++ zeroAddress` (it is treated as signed by the zero address,
not given the zero sentinel); when a signer recovers, `ID` is the digest of
`signingHash ++ signerAddress`, as the claim states. -/
theorem C1_id_digest (recover : RecoverFn) (t : Transaction) :
    (t.body.Signature = [] →
      t.ID recover = blake2b256 (t.SigningHash ++ zeroAddress)) ∧
    (∀ a, t.body.Signature ≠ [] →
      recover t.SigningHash t.body.Signature = .ok a →
      t.ID recover = blake2b256 (t.SigningHash ++ a)) := by
  constructor
  · intro h
    unfold Transaction.ID Transaction.Signer
    rw [h]
    rfl
  · intro a hne hr
    unfold Transaction.ID Transaction.Signer
    rw [if_neg (by simpa using hne), hr]

/-- Witness for C1 amended: the unsigned empty transaction, and the same
transaction with signature `[1]` under a collaborator recovering the
address `replicate 20 1`. -/
theorem C1_id_digest_witness :
    emptyTx.ID recoverNever
      = blake2b256 (emptyTx.SigningHash ++ zeroAddress) ∧
    (emptyTx.WithSignature [1]).ID recoverConst
      = blake2b256 ((emptyTx.WithSignature [1]).SigningHash ++ List.replicate 20 1) :=
  ⟨(C1_id_digest recoverNever emptyTx).1 rfl,
    (C1_id_digest recoverConst (emptyTx.WithSignature [1])).2
      (List.replicate 20 1) (by decide) rfl⟩

/-- **C4 counterexample** — with present-but-malformed signature bytes `[1]`
(under a recovery collaborator that rejects them), `Signer` does report the
error, but `ID` — whose Go signature has no error result at all — returns
the all-zero Hash32: exactly the zero substitution the claim rules out. -/
theorem C4_counterexample :
    (emptyTx.WithSignature [1]).Signer recoverNever = .error "invalid signature" ∧
    (emptyTx.WithSignature [1]).ID recoverNever = zeroBytes32 :=
  ⟨rfl, rfl⟩

/-- **C4 amended** — a recovery failure propagates from the collaborator
through `Signer` as an explicit error, distinguishable from the
empty-signature case (which succeeds with the zero address); `ID`, however,
cannot report it: it swallows the error and returns the all-zero Hash32. -/
theorem C4_signer_error_id_zero (recover : RecoverFn) (t : Transaction) (e : String)
    (hs : t.body.Signature ≠ [])
    (hr : recover t.SigningHash t.body.Signature = .error e) :
    t.Signer recover = .error e ∧
    t.ID recover = zeroBytes32 ∧
    (∀ t2 : Transaction, t2.body.Signature = [] →
      t.Signer recover ≠ t2.Signer recover) := by
  have h1 : t.Signer recover = .error e := by
    unfold Transaction.Signer
    rw [if_neg (by simpa using hs), hr]
  refine ⟨h1, ?_, ?_⟩
  · unfold Transaction.ID
    rw [h1]
  · intro t2 h2 hcon
    rw [h1, (C10_signer_empty_zero_address recover t2 h2).1] at hcon
    simp at hcon

/-- Witness for C4 amended at signature `[1]` under the rejecting
collaborator, against the unsigned empty transaction. -/
theorem C4_signer_error_id_zero_witness :
    (emptyTx.WithSignature [1]).Signer recoverNever = .error "invalid signature" ∧
    (emptyTx.WithSignature [1]).ID recoverNever = zeroBytes32 ∧
    (emptyTx.WithSignature [1]).Signer recoverNever ≠ emptyTx.Signer recoverNever := by
  have h := C4_signer_error_id_zero recoverNever (emptyTx.WithSignature [1])
    "invalid signature" (by decide) rfl
  exact ⟨h.1, h.2.1, h.2.2 emptyTx rfl⟩

/-- **C3** — encoding a valid transaction succeeds and decoding the
canonical encoding returns it field-for-field: clause order, optional
recipient and dependency presence, and empty or non-empty reserved list
included (they are all part of the `Transaction` value). -/
theorem C3_decode_encode_roundtrip (t : Transaction) (hv : validTx t = true) :
    t.EncodeRLP = .ok (txBytes t.body) ∧
    Transaction.DecodeRLP (txBytes t.body) = .ok t := by
  constructor
  · unfold Transaction.EncodeRLP
    rw [if_pos ?hc]
    case hc =>
      simp only [validTx, Bool.and_eq_true, decide_eq_true_eq, List.all_eq_true] at hv
      obtain ⟨⟨⟨⟨⟨⟨⟨⟨⟨⟨⟨⟨⟨_, _⟩, _⟩, hcl⟩, _⟩, _⟩, _⟩, _⟩, _⟩, _⟩, _⟩, _⟩, _⟩, _⟩ := hv
      unfold clausesEncodable
      rw [List.all_eq_true]
      intro c hc
      have := hcl c hc
      simp only [validClause, Bool.and_eq_true, decide_eq_true_eq] at this
      simpa using this.1.1.1.1.1.2
  · exact decodeRLP_txBytes t hv

/-- Witness for C3 at the sample transaction, which has two clauses (one
with a recipient, one without), a dependency hash, a non-empty nested
reserved list and a 65-byte signature. -/
theorem C3_decode_encode_roundtrip_witness :
    validTx sampleTx = true ∧
    Transaction.DecodeRLP (txBytes sampleTx.body) = .ok sampleTx :=
  ⟨by decide, (C3_decode_encode_roundtrip sampleTx (by decide)).2⟩

/-- **C9** — removing the final byte from a valid transaction's canonical
encoding makes decoding fail with the stream's truncation error
(`ErrValueTooLarge`), not succeed or substitute defaults. -/
theorem C9_decode_truncated (t : Transaction) (hv : validTx t = true) :
    Transaction.DecodeRLP ((txBytes t.body).dropLast)
      = .error "rlp: value size exceeds available input length" :=
  decodeRLP_truncated t hv

/-- Witness for C9 at the sample transaction. -/
theorem C9_decode_truncated_witness :
    Transaction.DecodeRLP ((txBytes sampleTx.body).dropLast)
      = .error "rlp: value size exceeds available input length" :=
  C9_decode_truncated sampleTx (by decide)

theorem parseAddress_ok_iff (s : List Char) :
    (∃ v, ParseAddress s = .ok v) ↔
      ((s.length = 40 ∧ allHex s = true) ∨
        (s.length = 42 ∧ (s.take 2).map asciiToLower = ['0', 'x'] ∧
          allHex (s.drop 2) = true)) := by
  unfold ParseAddress
  by_cases h40 : s.length = 20 * 2
  · rw [if_pos h40, hexDecode_ok_iff s]
    constructor
    · rintro ⟨_, hall⟩
      exact Or.inl ⟨by omega, hall⟩
    · rintro (⟨_, hall⟩ | ⟨h42, _, _⟩)
      · exact ⟨by omega, hall⟩
      · omega
  · rw [if_neg h40]
    by_cases h42 : s.length = 20 * 2 + 2
    · rw [if_pos h42]
      by_cases hpre : (s.take 2).map asciiToLower = ['0', 'x']
      · rw [if_pos hpre, hexDecode_ok_iff (s.drop 2)]
        constructor
        · rintro ⟨_, hall⟩
          exact Or.inr ⟨by omega, hpre, hall⟩
        · rintro (⟨h, _⟩ | ⟨_, _, hall⟩)
          · omega
          · refine ⟨?_, hall⟩
            rw [List.length_drop]
            omega
      · rw [if_neg hpre]
        constructor
        · rintro ⟨v, hv⟩
          simp at hv
        · rintro (⟨h, _⟩ | ⟨_, hp, _⟩)
          · omega
          · exact absurd hp hpre
    · rw [if_neg h42]
      constructor
      · rintro ⟨v, hv⟩
        simp at hv
      · rintro (⟨h, _⟩ | ⟨h, _, _⟩) <;> omega

theorem parseBytes32_ok_iff (s : List Char) :
    (∃ v, ParseBytes32 s = .ok v) ↔
      ((s.length = 64 ∧ allHex s = true) ∨
        (s.length = 66 ∧ (s.take 2).map asciiToLower = ['0', 'x'] ∧
          allHex (s.drop 2) = true)) := by
  unfold ParseBytes32
  by_cases h64 : s.length = 32 * 2
  · rw [if_pos h64, hexDecode_ok_iff s]
    constructor
    · rintro ⟨_, hall⟩
      exact Or.inl ⟨by omega, hall⟩
    · rintro (⟨_, hall⟩ | ⟨h66, _, _⟩)
      · exact ⟨by omega, hall⟩
      · omega
  · rw [if_neg h64]
    by_cases h66 : s.length = 32 * 2 + 2
    · rw [if_pos h66]
      by_cases hpre : (s.take 2).map asciiToLower = ['0', 'x']
      · rw [if_pos hpre, hexDecode_ok_iff (s.drop 2)]
        constructor
        · rintro ⟨_, hall⟩
          exact Or.inr ⟨by omega, hpre, hall⟩
        · rintro (⟨h, _⟩ | ⟨_, _, hall⟩)
          · omega
          · refine ⟨?_, hall⟩
            rw [List.length_drop]
            omega
      · rw [if_neg hpre]
        constructor
        · rintro ⟨v, hv⟩
          simp at hv
        · rintro (⟨h, _⟩ | ⟨_, hp, _⟩)
          · omega
          · exact absurd hp hpre
    · rw [if_neg h66]
      constructor
      · rintro ⟨v, hv⟩
        simp at hv
      · rintro (⟨h, _⟩ | ⟨h, _, _⟩) <;> omega

/-- **C7** — the fixed-width identifier parsers accept exactly the hex
strings of twice the byte width with an optional case-insensitive `0x`
marker; a wrong length is the `invalid length` error (so in particular any
39-character string), a present 2-character marker other than `0x`/`0X` is
the `invalid prefix` error, a non-hex character is the `encoding/hex`
error, and the marked and unmarked spellings of the same digits parse
identically. -/
theorem C7_parse_identifiers :
    (∀ s : List Char, (∃ v, ParseAddress s = .ok v) ↔
      ((s.length = 40 ∧ allHex s = true) ∨
        (s.length = 42 ∧ (s.take 2).map asciiToLower = ['0', 'x'] ∧
          allHex (s.drop 2) = true))) ∧
    (∀ s : List Char, (∃ v, ParseBytes32 s = .ok v) ↔
      ((s.length = 64 ∧ allHex s = true) ∨
        (s.length = 66 ∧ (s.take 2).map asciiToLower = ['0', 'x'] ∧
          allHex (s.drop 2) = true))) ∧
    (∀ s : List Char, s.length ≠ 40 → s.length ≠ 42 →
      ParseAddress s = .error "invalid length") ∧
    (∀ s : List Char, s.length ≠ 64 → s.length ≠ 66 →
      ParseBytes32 s = .error "invalid length") ∧
    (∀ s : List Char, s.length = 42 → (s.take 2).map asciiToLower ≠ ['0', 'x'] →
      ParseAddress s = .error "invalid prefix") ∧
    (∀ s : List Char, s.length = 66 → (s.take 2).map asciiToLower ≠ ['0', 'x'] →
      ParseBytes32 s = .error "invalid prefix") ∧
    (∀ s : List Char, s.length = 40 → allHex s = false →
      ParseAddress s = .error "encoding/hex: invalid byte") ∧
    (∀ ds : List Char, ds.length = 40 →
      ParseAddress ('0' :: 'x' :: ds) = ParseAddress ds) ∧
    (∀ ds : List Char, ds.length = 64 →
      ParseBytes32 ('0' :: 'X' :: ds) = ParseBytes32 ds) := by
  refine ⟨parseAddress_ok_iff, parseBytes32_ok_iff, ?_, ?_, ?_, ?_, ?_, ?_, ?_⟩
  · intro s h1 h2
    unfold ParseAddress
    rw [if_neg (by omega), if_neg (by omega)]
  · intro s h1 h2
    unfold ParseBytes32
    rw [if_neg (by omega), if_neg (by omega)]
  · intro s h1 h2
    unfold ParseAddress
    rw [if_neg (by omega), if_pos (by omega), if_neg h2]
  · intro s h1 h2
    unfold ParseBytes32
    rw [if_neg (by omega), if_pos (by omega), if_neg h2]
  · intro s h1 h2
    unfold ParseAddress
    rw [if_pos (by omega)]
    exact hexDecode_err_of_nonhex s (by omega) h2
  · intro ds h
    unfold ParseAddress
    rw [if_neg (by simp; omega), if_pos (by simp; omega)]
    rw [show (('0' :: 'x' :: ds).take 2).map asciiToLower = ['0', 'x'] from rfl]
    rw [if_pos rfl, if_pos (by omega)]
    rfl
  · intro ds h
    unfold ParseBytes32
    rw [if_neg (by simp; omega), if_pos (by simp; omega)]
    rw [show (('0' :: 'X' :: ds).take 2).map asciiToLower = ['0', 'x'] from rfl]
    rw [if_pos rfl, if_pos (by omega)]
    rfl

/-- Witness for C7: a 40-digit unmarked address string parses, a
39-character string is an `invalid length` error, and `0X`-marked and
unmarked 64-digit hash strings parse identically. -/
theorem C7_parse_identifiers_witness :
    (∃ v, ParseAddress (List.replicate 40 'a') = .ok v) ∧
    ParseAddress (List.replicate 39 'a') = .error "invalid length" ∧
    ParseBytes32 ('0' :: 'X' :: List.replicate 64 'b')
      = ParseBytes32 (List.replicate 64 'b') := by
  obtain ⟨h1, _, h3, _, _, _, _, _, h9⟩ := C7_parse_identifiers
  refine ⟨(h1 _).mpr (Or.inl ⟨by decide, by decide⟩), ?_, h9 _ (by decide)⟩
  exact h3 _ (by decide) (by decide)

end MeterGo
